import Mathlib

/-!
Shallow embedding of the Scheduling & Replay Engine of `Simulation.py`
(disk-scheduling simulator, SSTF & C-SCAN), together with proofs of the
spec's testable properties.

Cylinder numbers and the head position are Python `int`s, embedded as `Int`.
Seek distances are absolute differences, hence `Nat`; the C-SCAN total is
kept as `Int` because the jump step adds the raw value `disk_size - 1`.
The per-move latency multiplier (a Python float entered in a text field) is
embedded as `ℚ`.
-/

namespace Simulation

/-- `abs (a - b)`, the seek distance between two cylinders. -/
def seekDist (a b : Int) : Nat := (a - b).natAbs

/-! ### SSTF (`sstf` in `Simulation.py`, lines 43-65)

The Python scans the request list left to right keeping the first strict
minimum of `abs(cur - r)` over the unvisited entries (`if d < min_dist`),
marks it visited, accumulates the distance and moves there.  Keeping the
unvisited requests as a sublist in original order, one selection round is
`selectNearest`: it returns the first element of the list attaining the
minimal distance to `cur`, together with the list with that occurrence
removed. -/

/-- One SSTF selection round: the first element at minimal `seekDist` from
`cur`, plus the remaining list.  `none` exactly on the empty list. -/
def selectNearest (cur : Int) : List Int → Option (Int × List Int)
  | [] => none
  | r :: rs =>
    match selectNearest cur rs with
    | none => some (r, rs)
    | some (b, rest) =>
      if seekDist cur b < seekDist cur r then some (b, r :: rest)
      else some (r, rs)

/-- The SSTF greedy loop: `n` rounds (`for _ in range(len(reqs))`), current
head `cur`, unvisited requests `l`; returns the visit order and total seek. -/
def sstfAux : Nat → Int → List Int → List Int × Nat
  | 0, _, _ => ([], 0)
  | Nat.succ n, cur, l =>
    match selectNearest cur l with
    | none => ([], 0)
    | some (r, rest) =>
      let p := sstfAux n r rest
      (r :: p.1, seekDist cur r + p.2)

/-- `sstf(requests_list, head)`: visit order and total seek.  The empty-list
early return of the Python coincides with running zero rounds. -/
def sstf (requests : List Int) (head : Int) : List Int × Nat :=
  sstfAux requests.length head requests

/-! ### C-SCAN (`cscan` in `Simulation.py`, lines 67-96) -/

/-- One service sweep (`for r in part: total += abs(curr - r); curr = r`):
returns the distance accumulated over the sweep and the final position. -/
def servicePass (curr : Int) : List Int → Nat × Int
  | [] => (0, curr)
  | r :: rs =>
    let p := servicePass r rs
    (seekDist curr r + p.1, p.2)

/-- `left = sorted([r for r in requests_list if r < head])`. -/
def cscanLeft (requests : List Int) (head : Int) : List Int :=
  List.insertionSort (· ≤ ·) (requests.filter (fun r => decide (r < head)))

/-- `right = sorted([r for r in requests_list if r >= head])`. -/
def cscanRight (requests : List Int) (head : Int) : List Int :=
  List.insertionSort (· ≤ ·) (requests.filter (fun r => decide (head ≤ r)))

/-- `cscan(requests_list, head, disk_size, count_jump)`: partition into
`left` (strictly below `head`) and `right` (at or above `head`), each sorted
ascending; sweep `right` from `head`, move to the top boundary
`disk_size - 1` unless already there, optionally pay the jump (`total +=
curr`, with `curr = disk_size - 1` at that point), reset to cylinder `0`,
sweep `left`.  The visit order is the serviced `right` then `left`. -/
def cscan (requests : List Int) (head : Int) (disk_size : Int)
    (count_jump : Bool) : List Int × Int :=
  if requests.isEmpty then ([], 0)
  else
    let left := cscanLeft requests head
    let right := cscanRight requests head
    let p1 := servicePass head right
    let t1 : Int := (p1.1 : Int)
    let t2 : Int :=
      if p1.2 = disk_size - 1 then t1
      else t1 + ((disk_size - 1 - p1.2).natAbs : Int)
    let c2 : Int := disk_size - 1
    let t3 : Int := if count_jump then t2 + c2 else t2
    let p2 := servicePass 0 left
    (right ++ left, t3 + (p2.1 : Int))

/-! ### Replay (`DiskSchedulerApp.simulate`, lines 372-393)

The table-filling loop `for i, pos in enumerate(seq, start=1)` computes, per
visit-order entry, `dist = abs(curr - pos)`, `cumulative += dist`,
`latency = dist * ms_per_cyl`, then advances `curr = pos`.  Each row is one
`MoveEvent`. -/

/-- One row of the per-move table. -/
structure MoveEvent where
  index : Nat
  targetCylinder : Int
  stepDistance : Nat
  stepLatencyMs : ℚ
  cumulativeSeek : Nat
deriving DecidableEq, Repr

/-- The replay loop: event counter `i`, current position `curr`, running
`cum`ulative seek, remaining visit order. -/
def replayAux (ms : ℚ) : Nat → Int → Nat → List Int → List MoveEvent
  | _, _, _, [] => []
  | i, curr, cum, pos :: rest =>
    let d := seekDist curr pos
    ⟨i, pos, d, (d : ℚ) * ms, cum + d⟩ :: replayAux ms (i + 1) pos (cum + d) rest

/-- Replay of a seek plan's visit order from `head`: the sequence of
`MoveEvent`s, one per entry, indices starting at 1. -/
def replay (visitOrder : List Int) (head : Int) (ms : ℚ) : List MoveEvent :=
  replayAux ms 1 head 0 visitOrder

/-- The list of consecutive step distances along `head :: l`. -/
def travelDistances (head : Int) (l : List Int) : List Nat :=
  List.zipWith seekDist (head :: l) l

/-! ### Helper lemmas -/

lemma selectNearest_nil (cur : Int) : selectNearest cur [] = none := rfl

lemma selectNearest_cons_isSome (cur x : Int) (xs : List Int) :
    (selectNearest cur (x :: xs)).isSome := by
  simp only [selectNearest]
  cases selectNearest cur xs with
  | none => rfl
  | some p =>
    obtain ⟨b, rest⟩ := p
    by_cases h : seekDist cur b < seekDist cur x <;> simp [h]

/-- The selection round removes exactly one occurrence: the input list is a
permutation of the selected element consed onto the remainder. -/
lemma selectNearest_perm {cur : Int} :
    ∀ {l rest : List Int} {r : Int},
      selectNearest cur l = some (r, rest) → l.Perm (r :: rest) := by
  intro l
  induction l with
  | nil => intro rest r h; simp [selectNearest] at h
  | cons x xs ih =>
    intro rest r h
    cases hx : selectNearest cur xs with
    | none =>
      simp only [selectNearest, hx] at h
      cases h
      exact List.Perm.refl _
    | some p =>
      obtain ⟨b, brest⟩ := p
      simp only [selectNearest, hx] at h
      by_cases hd : seekDist cur b < seekDist cur x
      · rw [if_pos hd] at h
        cases h
        exact ((ih hx).cons x).trans (List.Perm.swap _ _ _)
      · rw [if_neg hd] at h
        cases h
        exact List.Perm.refl _

/-- The selection round picks the first element attaining the minimal
distance: every element strictly before the pick is strictly farther, and
no element of the list is strictly nearer. -/
lemma selectNearest_split {cur : Int} :
    ∀ {l rest : List Int} {r : Int},
      selectNearest cur l = some (r, rest) →
      ∃ l₁ l₂, l = l₁ ++ r :: l₂ ∧ rest = l₁ ++ l₂ ∧
        (∀ x ∈ l₁, seekDist cur r < seekDist cur x) ∧
        (∀ x ∈ l, seekDist cur r ≤ seekDist cur x) := by
  intro l
  induction l with
  | nil => intro rest r h; simp [selectNearest] at h
  | cons x xs ih =>
    intro rest r h
    cases hx : selectNearest cur xs with
    | none =>
      simp only [selectNearest, hx] at h
      cases h
      have hxs : xs = [] := by
        cases xs with
        | nil => rfl
        | cons y ys =>
          have := selectNearest_cons_isSome cur y ys
          rw [hx] at this
          simp at this
      subst hxs
      exact ⟨[], [], rfl, rfl, by simp, by simp⟩
    | some p =>
      obtain ⟨b, brest⟩ := p
      simp only [selectNearest, hx] at h
      obtain ⟨m₁, m₂, hsplit, hrest, hbefore, hmin⟩ := ih hx
      by_cases hd : seekDist cur b < seekDist cur x
      · rw [if_pos hd] at h
        cases h
        refine ⟨x :: m₁, m₂, by simp [hsplit], by simp [hrest], ?_, ?_⟩
        · intro y hy
          rcases List.mem_cons.mp hy with hy | hy
          · exact hy ▸ hd
          · exact hbefore y hy
        · intro y hy
          rcases List.mem_cons.mp hy with hy | hy
          · exact hy ▸ Nat.le_of_lt hd
          · exact hmin y hy
      · rw [if_neg hd] at h
        cases h
        refine ⟨[], xs, rfl, rfl, by simp, ?_⟩
        intro y hy
        rcases List.mem_cons.mp hy with hy | hy
        · exact hy ▸ Nat.le_refl _
        · exact Nat.le_trans (Nat.le_of_not_lt hd) (hmin y hy)

/-- The SSTF loop visits a permutation of its request list, provided the
round count covers the list (the code always passes the exact length). -/
lemma sstfAux_perm :
    ∀ (n : Nat) (cur : Int) (l : List Int), l.length ≤ n →
      ((sstfAux n cur l).1).Perm l := by
  intro n
  induction n with
  | zero =>
    intro cur l h
    have : l = [] := List.eq_nil_of_length_eq_zero (Nat.le_zero.mp h)
    subst this
    simp [sstfAux]
  | succ n ih =>
    intro cur l h
    cases l with
    | nil => simp [sstfAux, selectNearest]
    | cons x xs =>
      have hsome := selectNearest_cons_isSome cur x xs
      obtain ⟨⟨r, rest⟩, hr⟩ := Option.isSome_iff_exists.mp hsome
      have hperm := selectNearest_perm hr
      have hlen : rest.length ≤ n := by
        have := hperm.length_eq
        simp only [List.length_cons] at this h
        omega
      simp only [sstfAux, hr]
      exact ((ih r rest hlen).cons r).trans hperm.symm

/-- The SSTF total is the sum of seek distances along the visit order. -/
lemma sstfAux_total :
    ∀ (n : Nat) (cur : Int) (l : List Int),
      (sstfAux n cur l).2 = (travelDistances cur (sstfAux n cur l).1).sum := by
  intro n
  induction n with
  | zero => intro cur l; simp [sstfAux, travelDistances]
  | succ n ih =>
    intro cur l
    cases hr : selectNearest cur l with
    | none => simp [sstfAux, hr, travelDistances]
    | some p =>
      obtain ⟨r, rest⟩ := p
      simp only [sstfAux, hr, travelDistances, List.zipWith]
      rw [ih r rest]
      simp [travelDistances]

/-- The two C-SCAN filters split the request list into a permutation. -/
lemma filter_ge_append_filter_lt_perm (head : Int) (l : List Int) :
    (l.filter (fun r => decide (head ≤ r)) ++
      l.filter (fun r => decide (r < head))).Perm l := by
  have hf : (fun r : Int => decide (r < head)) =
      (fun r : Int => !decide (head ≤ r)) := by
    funext r
    by_cases h : head ≤ r
    · simp [h, not_lt.mpr h]
    · simp [h, lt_of_not_le h]
  rw [hf]
  exact List.filter_append_perm _ l

/-- Unfolding of `cscan` on a non-empty request list. -/
lemma cscan_of_ne_nil (reqs : List Int) (head d : Int) (j : Bool)
    (h : reqs ≠ []) :
    cscan reqs head d j =
      (cscanRight reqs head ++ cscanLeft reqs head,
        (let p1 := servicePass head (cscanRight reqs head)
         let t2 : Int :=
           if p1.2 = d - 1 then (p1.1 : Int)
           else (p1.1 : Int) + ((d - 1 - p1.2).natAbs : Int)
         (if j then t2 + (d - 1) else t2) +
           ((servicePass 0 (cscanLeft reqs head)).1 : Int))) := by
  cases reqs with
  | nil => exact absurd rfl h
  | cons x xs => rfl

/-- The replay emits exactly one event per visit-order entry. -/
lemma replayAux_length (ms : ℚ) :
    ∀ (l : List Int) (i : Nat) (c : Int) (cum : Nat),
      (replayAux ms i c cum l).length = l.length := by
  intro l
  induction l with
  | nil => intro i c cum; rfl
  | cons x xs ih => intro i c cum; simp [replayAux, ih]

/-- Closed form of the `k`-th replayed event. -/
lemma replayAux_get? (ms : ℚ) :
    ∀ (l : List Int) (k i : Nat) (c : Int) (cum : Nat), k < l.length →
      (replayAux ms i c cum l)[k]? =
        some ⟨i + k, l.getD k 0, seekDist ((c :: l).getD k 0) (l.getD k 0),
          (seekDist ((c :: l).getD k 0) (l.getD k 0) : ℚ) * ms,
          cum + ((travelDistances c l).take (k + 1)).sum⟩ := by
  intro l
  induction l with
  | nil => intro k i c cum hk; simp at hk
  | cons x xs ih =>
    intro k i c cum hk
    cases k with
    | zero => simp [replayAux, travelDistances]
    | succ k =>
      have hk' : k < xs.length := by simpa using hk
      simp only [replayAux, List.getElem?_cons_succ]
      rw [ih k (i + 1) x (cum + seekDist c x) hk']
      simp only [Option.some.injEq, MoveEvent.mk.injEq, List.getD_cons_succ]
      refine ⟨by omega, trivial, trivial, trivial, ?_⟩
      have ht : travelDistances c (x :: xs) =
          seekDist c x :: travelDistances x xs := rfl
      rw [ht, List.take_succ_cons, List.sum_cons]
      omega

/-- The replayed step distances are the travel distances of the plan. -/
lemma replayAux_map_stepDistance (ms : ℚ) :
    ∀ (l : List Int) (i : Nat) (c : Int) (cum : Nat),
      (replayAux ms i c cum l).map MoveEvent.stepDistance =
        travelDistances c l := by
  intro l
  induction l with
  | nil => intro i c cum; rfl
  | cons x xs ih =>
    intro i c cum
    simp only [replayAux, List.map_cons, ih]
    rfl

/-- The last replayed event carries the full accumulated distance. -/
lemma replayAux_getLast?_cum (ms : ℚ) :
    ∀ (l : List Int), l ≠ [] → ∀ (i : Nat) (c : Int) (cum : Nat),
      ((replayAux ms i c cum l).getLast?).map MoveEvent.cumulativeSeek =
        some (cum + (travelDistances c l).sum) := by
  intro l
  induction l with
  | nil => intro h; exact absurd rfl h
  | cons x xs ih =>
    intro _ i c cum
    cases xs with
    | nil => simp [replayAux, travelDistances]
    | cons y ys =>
      have h1 : replayAux ms i c cum (x :: y :: ys) =
          ⟨i, x, seekDist c x, (seekDist c x : ℚ) * ms, cum + seekDist c x⟩ ::
            replayAux ms (i + 1) x (cum + seekDist c x) (y :: ys) := rfl
      have h2 := ih (by simp) (i + 1) x (cum + seekDist c x)
      cases hrepl : replayAux ms (i + 1) x (cum + seekDist c x) (y :: ys) with
      | nil =>
        have hlen := replayAux_length ms (y :: ys) (i + 1) x (cum + seekDist c x)
        rw [hrepl] at hlen
        simp at hlen
      | cons e es =>
        rw [h1, hrepl, List.getLast?_cons_cons]
        rw [hrepl] at h2
        rw [h2]
        have ht : travelDistances c (x :: y :: ys) =
            seekDist c x :: travelDistances x (y :: ys) := rfl
        rw [ht, List.sum_cons]
        congr 1
        omega

/-! ### The spec's claims -/

/-- Claim C1: for every request list and head position, the SSTF visit order
is a multiset permutation of the request list, and so is the C-SCAN visit
order (for any disk size and jump-cost flag). -/
theorem sstf_cscan_permutation (reqs : List Int) (head d : Int) (j : Bool) :
    ((sstf reqs head).1).Perm reqs ∧ ((cscan reqs head d j).1).Perm reqs := by
  refine ⟨sstfAux_perm _ _ _ (Nat.le_refl _), ?_⟩
  by_cases h : reqs = []
  · subst h; simp [cscan]
  · rw [cscan_of_ne_nil reqs head d j h]
    show (cscanRight reqs head ++ cscanLeft reqs head).Perm reqs
    have h1 : (cscanRight reqs head).Perm
        (reqs.filter (fun r => decide (head ≤ r))) :=
      List.perm_insertionSort _ _
    have h2 : (cscanLeft reqs head).Perm
        (reqs.filter (fun r => decide (r < head))) :=
      List.perm_insertionSort _ _
    exact (h1.append h2).trans (filter_ge_append_filter_lt_perm head reqs)

/-- Claim C2, counterexample: with `requests = [60]`, `head = 50`,
`diskSize = 200` the left partition is empty, yet the jump-cost flag changes
the total seek (149 versus 348): the code pays the jump unconditionally, so
the flag is not a no-op when `left` is empty. -/
theorem cscan_jumpFlag_counterexample :
    ([(60 : Int)].filter (fun r => decide (r < (50 : Int)))) = [] ∧
      (cscan [60] 50 200 false).2 = 149 ∧ (cscan [60] 50 200 true).2 = 348 ∧
      (cscan [60] 50 200 false).2 ≠ (cscan [60] 50 200 true).2 := by decide

/-- Claim C2, amended: for every non-empty request list the C-SCAN total
seek with `countJumpCost = false` equals the total with
`countJumpCost = true` minus `diskSize - 1`, regardless of whether the left
partition is empty; the flag only has no effect on an empty request list. -/
theorem cscan_jumpFlag_offset (reqs : List Int) (head d : Int)
    (h : reqs ≠ []) :
    (cscan reqs head d false).2 = (cscan reqs head d true).2 - (d - 1) := by
  rw [cscan_of_ne_nil reqs head d false h, cscan_of_ne_nil reqs head d true h]
  simp only []
  split_ifs <;> first | contradiction | ring

/-- Witness for the amended Claim C2 at `requests = [60]`, `head = 50`,
`diskSize = 200`. -/
theorem cscan_jumpFlag_offset_witness :
    (([(60 : Int)] : List Int) ≠ []) ∧
      (cscan [60] 50 200 false).2 = (cscan [60] 50 200 true).2 - (200 - 1) :=
  ⟨by decide, cscan_jumpFlag_offset [60] 50 200 (by decide)⟩

/-- Claim C3, counterexample: on `requests = [98,183,37,122,14,124,65,67]`,
`head = 53` the SSTF total seek is 236, not the claimed 640 (640 is the
first-come-first-served total for this request list). -/
theorem sstf_example1_counterexample :
    (sstf [98, 183, 37, 122, 14, 124, 65, 67] 53).2 = 236 ∧
      (sstf [98, 183, 37, 122, 14, 124, 65, 67] 53).2 ≠ 640 := by decide

/-- Claim C3, amended: on `requests = [98,183,37,122,14,124,65,67]`,
`head = 53` SSTF visits cylinder 65 first (step distance 12) and returns a
total seek of 236. -/
theorem sstf_example1_amended :
    (sstf [98, 183, 37, 122, 14, 124, 65, 67] 53).1.head? = some 65 ∧
      seekDist 53 65 = 12 ∧
      (sstf [98, 183, 37, 122, 14, 124, 65, 67] 53).1 =
        [65, 67, 37, 14, 98, 122, 124, 183] ∧
      (sstf [98, 183, 37, 122, 14, 124, 65, 67] 53).2 = 236 := by decide

/-- Claim C4: at every step of the SSTF greedy loop (every unfolding of
`sstfAux` on a non-empty unvisited list), the selected request is the
earliest-listed one at minimal distance from the current position: all
listed before it are strictly farther, none listed is strictly nearer.
Since the unvisited list keeps the original request order, this is the
stable tie-break of the claim. -/
theorem sstf_tieBreak (cur : Int) (l : List Int) (n : Nat) (h : l ≠ []) :
    ∃ r rest l₁ l₂,
      selectNearest cur l = some (r, rest) ∧
      sstfAux (n + 1) cur l =
        (r :: (sstfAux n r rest).1, seekDist cur r + (sstfAux n r rest).2) ∧
      l = l₁ ++ r :: l₂ ∧ rest = l₁ ++ l₂ ∧
      (∀ x ∈ l₁, seekDist cur r < seekDist cur x) ∧
      (∀ x ∈ l, seekDist cur r ≤ seekDist cur x) := by
  cases l with
  | nil => exact absurd rfl h
  | cons x xs =>
    obtain ⟨⟨r, rest⟩, hr⟩ :=
      Option.isSome_iff_exists.mp (selectNearest_cons_isSome cur x xs)
    obtain ⟨l₁, l₂, hsplit, hrest, hbefore, hmin⟩ := selectNearest_split hr
    exact ⟨r, rest, l₁, l₂, hr, by simp [sstfAux, hr], hsplit, hrest,
      hbefore, hmin⟩

/-- Witness for Claim C4 at `head = 0`, `requests = [5, -5]`: the two
requests are equidistant (distance 5) and the earlier-listed 5 is chosen. -/
theorem sstf_tieBreak_witness :
    (([5, -5] : List Int) ≠ []) ∧
      ∃ r rest l₁ l₂,
        selectNearest 0 [5, -5] = some (r, rest) ∧
        sstfAux 2 0 [5, -5] =
          (r :: (sstfAux 1 r rest).1, seekDist 0 r + (sstfAux 1 r rest).2) ∧
        ([5, -5] : List Int) = l₁ ++ r :: l₂ ∧ rest = l₁ ++ l₂ ∧
        (∀ x ∈ l₁, seekDist 0 r < seekDist 0 x) ∧
        (∀ x ∈ ([5, -5] : List Int), seekDist 0 r ≤ seekDist 0 x) :=
  ⟨by decide, sstf_tieBreak 0 [5, -5] 1 (by decide)⟩

/-- Claim C5, counterexample: `head = -5` is outside `[0, 199]`, yet both
schedulers return a complete plan (every request serviced) and no error:
there is no `HeadOutOfRange` check anywhere in the code. -/
theorem head_out_of_range_counterexample :
    ¬ (0 ≤ (-5 : Int)) ∧ sstf [10] (-5) = ([10], 15) ∧
      cscan [10] (-5) 200 true = ([10], 403) := by decide

/-- Claim C5, amended: the schedulers never validate the head position; for
any head outside `[0, diskSize-1]` they still return a plan servicing every
request (full-length visit order) instead of failing. -/
theorem head_out_of_range_no_failure (reqs : List Int) (head d : Int)
    (j : Bool) (h : head < 0 ∨ d - 1 < head) :
    (sstf reqs head).1.length = reqs.length ∧
      (cscan reqs head d j).1.length = reqs.length := by
  refine ⟨(sstfAux_perm _ _ _ (Nat.le_refl _)).length_eq, ?_⟩
  by_cases hr : reqs = []
  · subst hr; simp [cscan]
  · rw [cscan_of_ne_nil _ _ _ _ hr]
    show (cscanRight reqs head ++ cscanLeft reqs head).length = _
    have h1 : (cscanRight reqs head).Perm
        (reqs.filter (fun r => decide (head ≤ r))) :=
      List.perm_insertionSort _ _
    have h2 : (cscanLeft reqs head).Perm
        (reqs.filter (fun r => decide (r < head))) :=
      List.perm_insertionSort _ _
    exact ((h1.append h2).trans
      (filter_ge_append_filter_lt_perm head reqs)).length_eq

/-- Witness for the amended Claim C5 at `head = -5`, `diskSize = 200`. -/
theorem head_out_of_range_no_failure_witness :
    ((-5 : Int) < 0 ∨ (200 : Int) - 1 < -5) ∧
      ((sstf [10] (-5)).1.length = 1 ∧
        (cscan [10] (-5) 200 true).1.length = 1) :=
  ⟨Or.inl (by decide),
    head_out_of_range_no_failure [10] (-5) 200 true (Or.inl (by decide))⟩

/-- Claim C6: for a non-empty request list the C-SCAN total decomposes as
the `right` sweep, plus the boundary move (paid exactly when the position
after `right` — which is `head` itself when `right` is empty — is not
already `diskSize - 1`), plus the optional jump, plus the `left` sweep; and
every entry of the visit order is a requested cylinder, so the boundary
cylinder is never appended unless it was itself requested. -/
theorem cscan_boundary_sweep (reqs : List Int) (head d : Int) (j : Bool)
    (h : reqs ≠ []) :
    (cscan reqs head d j).2 =
        ((servicePass head (cscanRight reqs head)).1 : Int) +
          (if (servicePass head (cscanRight reqs head)).2 = d - 1 then 0
            else (((d - 1) - (servicePass head (cscanRight reqs head)).2).natAbs :
              Int)) +
          (if j then d - 1 else 0) +
          ((servicePass 0 (cscanLeft reqs head)).1 : Int) ∧
      ∀ x ∈ (cscan reqs head d j).1, x ∈ reqs := by
  constructor
  · rw [cscan_of_ne_nil _ _ _ _ h]
    simp only []
    split_ifs <;> ring
  · intro x hx
    rw [cscan_of_ne_nil _ _ _ _ h] at hx
    simp only [] at hx
    rcases List.mem_append.mp hx with hx | hx
    · exact (List.mem_filter.mp ((List.mem_insertionSort _).mp hx)).1
    · exact (List.mem_filter.mp ((List.mem_insertionSort _).mp hx)).1

/-- Witness for Claim C6 at `requests = [10]`, `head = 50`, `diskSize = 100`
(the right partition is empty, so the boundary move starts from `head`). -/
theorem cscan_boundary_sweep_witness :
    (([10] : List Int) ≠ []) ∧
      ((cscan [10] 50 100 true).2 =
          ((servicePass 50 (cscanRight [10] 50)).1 : Int) +
            (if (servicePass 50 (cscanRight [10] 50)).2 = 100 - 1 then 0
              else (((100 - 1) - (servicePass 50 (cscanRight [10] 50)).2).natAbs :
                Int)) +
            (if (true : Bool) then 100 - 1 else 0) +
            ((servicePass 0 (cscanLeft [10] 50)).1 : Int) ∧
        ∀ x ∈ (cscan [10] 50 100 true).1, x ∈ ([10] : List Int)) :=
  ⟨by decide, cscan_boundary_sweep [10] 50 100 true (by decide)⟩

/-- Claim C7: the replay of a seek plan emits exactly one event per
visit-order entry, in order, and the `i`-th event (0-based `i`) has index
`i + 1`, target `visitOrder[i]`, step distance `abs(prev - target)` with
`prev` the head for the first step and the previous target afterwards,
latency `stepDistance * msPerCylinder`, and cumulative seek the running sum
of the step distances; being a total function of the plan, it never errors
mid-sequence. -/
theorem replay_event_shape (l : List Int) (head : Int) (ms : ℚ)
    (hms : 0 ≤ ms) :
    (replay l head ms).length = l.length ∧
      ∀ i, i < l.length →
        (replay l head ms)[i]? =
          some ⟨i + 1, l.getD i 0, seekDist ((head :: l).getD i 0) (l.getD i 0),
            (seekDist ((head :: l).getD i 0) (l.getD i 0) : ℚ) * ms,
            ((travelDistances head l).take (i + 1)).sum⟩ := by
  refine ⟨replayAux_length ms l 1 head 0, ?_⟩
  intro i hi
  rw [replay, replayAux_get? ms l i 1 head 0 hi]
  simp [Nat.add_comm]

/-- Witness for Claim C7 at `visitOrder = [3, -2]`, `head = 0`,
`msPerCylinder = 2`: two events; the second targets -2 at distance 5,
latency 10, cumulative seek 8. -/
theorem replay_event_shape_witness :
    ((0 : ℚ) ≤ 2) ∧ (replay [3, -2] 0 2).length = 2 ∧
      (replay [3, -2] 0 2)[1]? = some ⟨2, -2, 5, 10, 8⟩ := by
  refine ⟨by norm_num, (replay_event_shape [3, -2] 0 2 (by norm_num)).1, ?_⟩
  exact ((replay_event_shape [3, -2] 0 2 (by norm_num)).2 1
    (by norm_num)).trans (by norm_num [seekDist, travelDistances])

/-- Claim C8: on an empty request list both schedulers return an empty
visit order with total seek 0, with no error; in particular the C-SCAN
boundary move and jump contribute nothing for either value of the
jump-cost flag. -/
theorem empty_requests_zero_cost (head d : Int) :
    sstf [] head = ([], 0) ∧ cscan [] head d true = ([], 0) ∧
      cscan [] head d false = ([], 0) :=
  ⟨rfl, rfl, rfl⟩

/-- Claim C9: on `requests = [98,183,37,122,14,124,65,67]`, `head = 53`,
`diskSize = 200`, `countJumpCost = true`, C-SCAN returns total seek 382 and
visit order 65, 67, 98, 122, 124, 183, 14, 37. -/
theorem cscan_example2 :
    cscan [98, 183, 37, 122, 14, 124, 65, 67] 53 200 true =
      ([65, 67, 98, 122, 124, 183, 14, 37], 382) := by decide

/-- Claim C10: replaying the SSTF plan from the same head reproduces the
plan's total seek: the replayed step distances sum to `totalSeek`, and the
final event's cumulative seek (0 for an empty plan) equals `totalSeek`. -/
theorem sstf_replay_agreement (reqs : List Int) (head : Int) (ms : ℚ) :
    ((replay (sstf reqs head).1 head ms).map MoveEvent.stepDistance).sum =
        (sstf reqs head).2 ∧
      (((replay (sstf reqs head).1 head ms).getLast?).map
          MoveEvent.cumulativeSeek).getD 0 = (sstf reqs head).2 := by
  have htot : (sstf reqs head).2 =
      (travelDistances head (sstf reqs head).1).sum :=
    sstfAux_total reqs.length head reqs
  constructor
  · rw [replay, replayAux_map_stepDistance]
    exact htot.symm
  · cases hv : (sstf reqs head).1 with
    | nil =>
      rw [replay]
      rw [htot, hv]
      simp [replayAux, travelDistances]
    | cons x xs =>
      rw [replay, replayAux_getLast?_cum ms (x :: xs) (by simp) 1 head 0]
      rw [htot, hv]
      simp

end Simulation
